import Mathlib

/-!
Verification of the PMDI (Py-Multiple Dependency Injection) core primitives
from `cd_patterns.py`, as a shallow embedding.

The embedding models:
* Python dicts with unique keys as association lists in insertion order
  (`lookupDict`, `dictInsert`);
* the helper `_extract_prefix_before_kwargs`, which applies the Python
  regular expression `re.match(r"(.+)_kwargs$", kwargs_name)`.  Python regex
  semantics matter here: `.` matches any character except a newline, and `$`
  matches at the end of the string or just before a single newline that is
  the final character.  So the regex matches exactly when the key is
  `p ++ "_kwargs"` or `p ++ "_kwargs" ++ "\n"` for a non-empty,
  newline-free prefix `p`, and the greedy group returns that `p`
  (`extract_prefix_before_kwargs`, characterized by `extract_eq_some_iff`);
* `CustomizableCode.__new__` as `new_guard` (the abstract-until-wired
  check), and full Python construction (`__new__` then `__init__`) as
  `construct`;
* `CustomizableCode.instantiate_dependencies` as `instantiate_dependencies`
  (batch missing-kwargs check, then per-key decompose / resolve / construct /
  attach, in dict order);
* `wire_dependencies` over an explicit class store (`ClassHeap`), so that
  non-mutation of the base class and independence of sibling wirings are
  meaningful statements: a wiring allocates a fresh class identifier and
  writes only there.

Error classes are modelled by the inductive `PmdiError`; the payload of each
constructor is the data interpolated into the Python exception message:
* `configurationError` models the `TypeError` raised by
  `CustomizableCode.__new__` and by `wire_dependencies` (the class name and
  the sorted list of missing dependency names);
* `missingArgumentsError` models the `RuntimeError` for missing `_kwargs`
  bundles (class name and sorted missing names);
* `namingError` models the `RuntimeError` for a malformed kwarg key;
* `unresolvedDependencyError` models the `RuntimeError` for an undeclared
  dependency name (the name and the owning class name).

Dependency argument bundles are opaque tokens (`Nat`): the code passes them
through unchanged to the dependency class constructor, so only their
identity is observable.  A constructed dependency instance records the
identifier of the class it was built from and the bundle it was built with.
-/

/-- Keys of a Python dict modelled as an association list. -/
def dictKeys {κ α : Type} (d : List (κ × α)) : List κ :=
  d.map Prod.fst

/-- Python dict lookup `d[k]` / `d.get(k)`: first (unique) matching key. -/
def lookupDict {κ α : Type} [BEq κ] (d : List (κ × α)) (k : κ) : Option α :=
  (d.find? (fun p => p.1 == k)).map Prod.snd

/-- Python dict write `d[k] = v`: overwrite in place if the key is present
(keys are unique in a dict, so the first hit is the only one), append
otherwise (insertion order is preserved). -/
def dictInsert {κ α : Type} [BEq κ] : List (κ × α) → κ → α → List (κ × α)
  | [], k, v => [(k, v)]
  | (k', v') :: rest, k, v =>
    if k' == k then (k, v) :: rest else (k', v') :: dictInsert rest k v

/-- Python `str.lower()` (code-point-wise lower-casing; the dependency
names in play are ASCII identifiers).  Defined on the character list so that
it evaluates inside the kernel. -/
def strLower (s : String) : String :=
  ⟨s.data.map Char.toLower⟩

/-- Lexicographic comparison of character lists by code point (helper for
`strLt`). -/
def charListLt : List Char → List Char → Bool
  | [], [] => false
  | [], _ :: _ => true
  | _ :: _, [] => false
  | a :: as, b :: bs =>
    if a < b then true else if b < a then false else charListLt as bs

/-- Python string `<` (lexicographic by code point), as used by
`sorted(...)`.  Defined on the character list so that it evaluates inside
the kernel. -/
def strLt (a b : String) : Bool :=
  charListLt a.data b.data

/-- Insert a string into a lexicographically sorted list (helper for
`sortStr`). -/
def insertSorted (x : String) : List String → List String
  | [] => [x]
  | y :: ys => if strLt x y then x :: y :: ys else y :: insertSorted x ys

/-- Python `sorted(...)` on a collection of strings (insertion sort; the
code only uses the result to render error messages, so what matters is that
it enumerates exactly the same set). -/
def sortStr : List String → List String
  | [] => []
  | x :: xs => insertSorted x (sortStr xs)

/-- The character list of the literal suffix marker `"_kwargs"`. -/
def kwargsMarker : List Char :=
  "_kwargs".data

/-- Model of `_extract_prefix_before_kwargs`, i.e. of
`re.match(r"(.+)_kwargs$", kwargs_name)` returning `group(1)`.

Per Python regex semantics (see the module docstring), the match succeeds
exactly when the key consists of a non-empty newline-free prefix followed by
`"_kwargs"`, optionally followed by one final newline (matched by `$`), and
the greedy group is that prefix. -/
def extract_prefix_before_kwargs (s : String) : Option String :=
  let cs := if s.data.getLast? = some '\n' then s.data.dropLast else s.data
  if kwargsMarker.isSuffixOf cs && decide (7 < cs.length)
      && !((cs.take (cs.length - 7)).contains '\n') then
    some (String.mk (cs.take (cs.length - 7)))
  else
    none

/-- The error classes raised by `cd_patterns.py`, with the data that the
code interpolates into each exception message. -/
inductive PmdiError : Type where
  | configurationError (clsName : String) (missing : List String)
  | missingArgumentsError (clsName : String) (missing : List String)
  | namingError (key : String)
  | unresolvedDependencyError (depName : String) (clsName : String)
deriving DecidableEq

/-- A constructed dependency instance: `dep_class(**dep_kwargs)` is recorded
as the identifier of `dep_class` together with the bundle it received. -/
structure DepInstance : Type where
  cls : Nat
  args : Nat
deriving DecidableEq

/-- A component class: its `__name__`, its `required_dependencies` set
(modelled as a duplicate-free list) and its `declared_dependencies` dict
(dependency name to concrete-class identifier; empty when unwired, matching
`getattr(cls, "declared_dependencies", {})`). -/
structure PyClass : Type where
  name : String
  required_dependencies : List String
  declared_dependencies : List (String × Nat)
deriving DecidableEq

/-- The `missing` set of `CustomizableCode.__new__` (and, applied to the
freshly wired class, of `wire_dependencies`):
`set(required) - set(declared.keys())`. -/
def missingRegistry (cls : PyClass) : List String :=
  cls.required_dependencies.filter
    (fun d => !((dictKeys cls.declared_dependencies).contains d))

/-- Model of `CustomizableCode.__new__`: if `required_dependencies` is
non-empty and some required name has no entry in `declared_dependencies`,
raise the `TypeError` (modelled as `configurationError`) carrying the class
name and the sorted missing names; otherwise let construction proceed. -/
def new_guard (cls : PyClass) : Except PmdiError Unit :=
  if cls.required_dependencies ≠ [] then
    if missingRegistry cls ≠ [] then
      .error (.configurationError cls.name (sortStr (missingRegistry cls)))
    else
      .ok ()
  else
    .ok ()

/-- Full object construction: Python runs `cls.__new__` first and only when
it returns does it run the `__init__` body.  The `__init__` body is an
arbitrary computation (for PMDI components it calls
`instantiate_dependencies`); if the guard raises, that body never runs. -/
def construct {α : Type} (cls : PyClass) (init : Except PmdiError α) :
    Except PmdiError α :=
  match new_guard cls with
  | .error e => .error e
  | .ok () => init

/-- Whether one tagged key would be processed successfully by the loop in
`instantiate_dependencies`: it decomposes by the naming convention and its
bare name is declared for the class. -/
def resolves (cls : PyClass) (key : String) : Bool :=
  match extract_prefix_before_kwargs key with
  | some tag => (lookupDict cls.declared_dependencies tag).isSome
  | none => false

/-- The `for dep_kw_name, dep_kwargs in kwargs.items()` loop of
`instantiate_dependencies`: decompose each key, resolve it in the registry,
construct the dependency instance and attach it to the owner attribute dict
(overwriting any prior attribute of that name). -/
def processDeps (cls : PyClass) (attrs : List (String × DepInstance)) :
    List (String × Nat) → Except PmdiError (List (String × DepInstance))
  | [] => .ok attrs
  | (key, bundle) :: rest =>
    match extract_prefix_before_kwargs key with
    | none => .error (.namingError key)
    | some tag =>
      match lookupDict cls.declared_dependencies tag with
      | none => .error (.unresolvedDependencyError tag cls.name)
      | some depCls =>
        processDeps cls (dictInsert attrs tag ⟨depCls, bundle⟩) rest

/-- The `missing_kwargs` list of `instantiate_dependencies`: required names
with no `<name>_kwargs` key among the supplied kwargs. -/
def missingBundles (cls : PyClass) (kwargs : List (String × Nat)) :
    List String :=
  cls.required_dependencies.filter
    (fun dep => !((dictKeys kwargs).contains (dep ++ "_kwargs")))

/-- Model of `CustomizableCode.instantiate_dependencies`, acting on the
attribute dict `attrs` of the owning instance.  Step 1: every name in
`required_dependencies` must have the tagged key `name ++ "_kwargs"` among
the supplied kwargs, else the batch `RuntimeError` (modelled as
`missingArgumentsError`) is raised with the sorted list of all missing
names.  Step 2: process the kwargs in dict order. -/
def instantiate_dependencies (cls : PyClass)
    (attrs : List (String × DepInstance)) (kwargs : List (String × Nat)) :
    Except PmdiError (List (String × DepInstance)) :=
  if missingBundles cls kwargs ≠ [] then
    .error (.missingArgumentsError cls.name (sortStr (missingBundles cls kwargs)))
  else
    processDeps cls attrs kwargs

/-- The dict comprehension `{k.lower(): v for k, v in dependencies.items()}`
of `wire_dependencies`. -/
def normalizeBindings (dependencies : List (String × Nat)) :
    List (String × Nat) :=
  dependencies.foldl (fun acc p => dictInsert acc (strLower p.1) p.2) []

/-- The class object built by `wire_dependencies`
(`type(name, (base_cls,), {})` followed by the `declared_dependencies`
assignment): name suffixed with `"Wired"`, `required_dependencies` inherited
from the base, own registry set to the lower-cased bindings. -/
def wiredClass (base : PyClass) (dependencies : List (String × Nat)) :
    PyClass :=
  { name := base.name ++ "Wired"
    required_dependencies := base.required_dependencies
    declared_dependencies := normalizeBindings dependencies }

/-- The store of class objects: Python class objects are heap values, so
mutation (or absence of mutation) of one class by an operation on another is
observable.  Identifiers of live classes are all below `next`. -/
structure ClassHeap : Type where
  classes : List (Nat × PyClass)
  next : Nat
deriving DecidableEq

/-- A well-formed heap: every allocated identifier is below `next`, so a
fresh allocation never collides. -/
def heapWF (h : ClassHeap) : Prop :=
  ∀ p ∈ h.classes, p.1 < h.next

/-- Model of `wire_dependencies(base_cls, **dependencies)`: read the base
class, build the new class object (`wiredClass`), then check completeness of
the new registry against the inherited requirements; on failure raise the
`TypeError` (modelled as `configurationError`) and hand nothing back (the
freshly built class object is unreachable), on success allocate the new
class at a fresh identifier and return it.  Passing an identifier not bound
to a class is outside the function contract (Python would raise an
`AttributeError` on `base_cls.__name__`); it is mapped to a
`configurationError` with an empty payload. -/
def wire_dependencies (h : ClassHeap) (baseId : Nat)
    (dependencies : List (String × Nat)) :
    Except PmdiError (Nat × ClassHeap) :=
  match lookupDict h.classes baseId with
  | none => .error (.configurationError "" [])
  | some base =>
    if missingRegistry (wiredClass base dependencies) ≠ [] then
      .error (.configurationError base.name
        (sortStr (missingRegistry (wiredClass base dependencies))))
    else
      .ok (h.next,
        ⟨h.classes ++ [(h.next, wiredClass base dependencies)], h.next + 1⟩)

/-! ### Concrete classes from `showcase_injection.py`, used as witnesses

Concrete dependency classes are identified by tokens: `CylinderClass` is 1,
`BumperClass` is 2, `WindshieldClass` is 3. -/

/-- `EngineBase`: requires `{"cylinder"}`, unwired. -/
def EngineBase : PyClass :=
  { name := "EngineBase", required_dependencies := ["cylinder"],
    declared_dependencies := [] }

/-- `CarBase`: requires `{"bumper", "windshield", "engine"}`, unwired. -/
def CarBase : PyClass :=
  { name := "CarBase",
    required_dependencies := ["bumper", "windshield", "engine"],
    declared_dependencies := [] }

/-- A base class whose required names include an upper-case letter, used to
probe case handling. -/
def BaseAB : PyClass :=
  { name := "BaseAB", required_dependencies := ["A", "b"],
    declared_dependencies := [] }

/-- A base class with the single upper-case required name `"A"`. -/
def BaseA : PyClass :=
  { name := "BaseA", required_dependencies := ["A"],
    declared_dependencies := [] }

/-- A demonstration class store holding the example base classes. -/
def demoHeap : ClassHeap :=
  { classes := [(0, EngineBase), (1, CarBase), (2, BaseAB), (3, BaseA)],
    next := 4 }

/-- `EngineBase` wired with `cylinder=CylinderClass`, plus an extra
`engine_block` binding that no bundle will ever be supplied for. -/
def EngineOverWired : PyClass :=
  { name := "EngineBaseWired", required_dependencies := ["cylinder"],
    declared_dependencies := [("cylinder", 1), ("engine_block", 9)] }

/-- `EngineBase` wired with `cylinder=CylinderClass` only. -/
def EngineWired : PyClass :=
  { name := "EngineBaseWired", required_dependencies := ["cylinder"],
    declared_dependencies := [("cylinder", 1)] }

/-- `CarBase` wired with a binding for each required name. -/
def CarWired : PyClass :=
  { name := "CarBaseWired",
    required_dependencies := ["bumper", "windshield", "engine"],
    declared_dependencies := [("bumper", 2), ("windshield", 3), ("engine", 4)] }

/-! ### Library lemmas about the dict, sorting and extractor models -/

theorem lookupDict_nil {κ α : Type} [BEq κ] (k : κ) :
    lookupDict ([] : List (κ × α)) k = none := rfl

theorem lookupDict_cons {κ α : Type} [BEq κ] (k' : κ) (v : α)
    (d : List (κ × α)) (k : κ) :
    lookupDict ((k', v) :: d) k = if k' == k then some v else lookupDict d k := by
  simp only [lookupDict, List.find?_cons]
  cases h : (k' == k) <;> simp [h]

theorem mem_dictKeys_iff {κ α : Type} [BEq κ] [LawfulBEq κ]
    (d : List (κ × α)) (k : κ) :
    k ∈ dictKeys d ↔ (lookupDict d k).isSome := by
  induction d with
  | nil => simp [dictKeys, lookupDict]
  | cons p d ih =>
    obtain ⟨k', v⟩ := p
    rw [lookupDict_cons]
    by_cases h : k' = k
    · subst h; simp [dictKeys]
    · have hb : (k' == k) = false := by simp [h]
      simp only [dictKeys, List.map_cons, List.mem_cons, hb, Bool.false_eq_true,
        if_false]
      rw [show (List.map Prod.fst d) = dictKeys d from rfl, ih]
      simp [Ne.symm h]

theorem lookupDict_dictInsert {κ α : Type} [BEq κ] [LawfulBEq κ]
    (d : List (κ × α)) (k k' : κ) (v : α) :
    lookupDict (dictInsert d k v) k' =
      if k == k' then some v else lookupDict d k' := by
  induction d with
  | nil =>
    by_cases h : k = k' <;> simp [dictInsert, lookupDict_cons, lookupDict_nil, h]
  | cons p rest ih =>
    obtain ⟨a, w⟩ := p
    by_cases h1 : a = k <;> by_cases h2 : a = k' <;> by_cases h3 : k = k' <;>
      simp_all [dictInsert, lookupDict_cons]

theorem mem_dictKeys_dictInsert {κ α : Type} [BEq κ] [LawfulBEq κ]
    (d : List (κ × α)) (k k' : κ) (v : α) :
    k' ∈ dictKeys (dictInsert d k v) ↔ k' = k ∨ k' ∈ dictKeys d := by
  rw [mem_dictKeys_iff, lookupDict_dictInsert, mem_dictKeys_iff]
  by_cases h : k = k'
  · subst h; simp
  · simp [h, Ne.symm h]

theorem lookupDict_append {κ α : Type} [BEq κ] (d e : List (κ × α)) (k : κ) :
    lookupDict (d ++ e) k = ((lookupDict d k).or (lookupDict e k)) := by
  induction d with
  | nil => simp [lookupDict_nil]
  | cons p d ih =>
    obtain ⟨a, w⟩ := p
    rw [List.cons_append, lookupDict_cons, lookupDict_cons]
    cases h : (a == k) <;> simp [h, ih]

theorem mem_insertSorted (a x : String) (l : List String) :
    a ∈ insertSorted x l ↔ a = x ∨ a ∈ l := by
  induction l with
  | nil => simp [insertSorted]
  | cons y ys ih =>
    cases h : strLt x y
    · simp only [insertSorted, h, Bool.false_eq_true, if_false, List.mem_cons, ih]
      tauto
    · simp [insertSorted, h]

theorem mem_sortStr (a : String) (l : List String) :
    a ∈ sortStr l ↔ a ∈ l := by
  induction l with
  | nil => simp [sortStr]
  | cons x xs ih => simp [sortStr, mem_insertSorted, ih]

theorem insertSorted_ne_nil (x : String) (l : List String) :
    insertSorted x l ≠ [] := by
  cases l with
  | nil => simp [insertSorted]
  | cons y ys =>
    simp only [insertSorted]
    split <;> simp

theorem sortStr_eq_nil_iff (l : List String) : sortStr l = [] ↔ l = [] := by
  cases l with
  | nil => simp [sortStr]
  | cons x xs => simp [sortStr, insertSorted_ne_nil]

theorem kwargsMarker_length : kwargsMarker.length = 7 := by decide

theorem marker_getLast? : kwargsMarker.getLast? = some 's' := by decide

/-- The boolean guard of the extractor, characterized as a decomposition of
the character list. -/
theorem extract_core_iff (cs : List Char) :
    (kwargsMarker.isSuffixOf cs && decide (7 < cs.length)
      && !((cs.take (cs.length - 7)).contains '\n')) = true
    ↔ ∃ q : List Char, q ≠ [] ∧ '\n' ∉ q ∧ cs = q ++ kwargsMarker ∧
        cs.take (cs.length - 7) = q := by
  constructor
  · intro h
    simp only [Bool.and_eq_true, Bool.not_eq_true'] at h
    obtain ⟨⟨h1, h2⟩, h3⟩ := h
    rw [List.isSuffixOf_iff_suffix] at h1
    obtain ⟨t, ht⟩ := h1
    have hlen : cs.length = t.length + 7 := by
      rw [← ht, List.length_append, kwargsMarker_length]
    have htake : cs.take (cs.length - 7) = t := by
      rw [hlen, Nat.add_sub_cancel, ← ht, List.take_left]
    refine ⟨t, ?_, ?_, ht.symm, htake⟩
    · intro hnil
      rw [hnil] at hlen
      simp only [List.length_nil, Nat.zero_add] at hlen
      simp only [decide_eq_true_eq] at h2
      omega
    · intro hmem
      rw [htake] at h3
      have : t.contains '\n' = true := by
        simp only [List.contains_eq_any_beq, List.any_eq_true]
        exact ⟨'\n', hmem, by simp⟩
      rw [this] at h3
      exact absurd h3 (by simp)
  · rintro ⟨q, hq1, hq2, hcs, htake⟩
    have h1 : kwargsMarker.isSuffixOf cs = true := by
      rw [List.isSuffixOf_iff_suffix, hcs]
      exact ⟨q, rfl⟩
    have h2 : 7 < cs.length := by
      rw [hcs, List.length_append, kwargsMarker_length]
      have : 0 < q.length := List.length_pos.mpr hq1
      omega
    simp only [Bool.and_eq_true, Bool.not_eq_true', h1, true_and]
    constructor
    · simpa using h2
    · rw [htake]
      simp only [List.contains_eq_any_beq]
      rw [List.any_eq_false]
      intro c hc
      simp only [beq_iff_eq]
      intro he
      exact hq2 (he ▸ hc)

theorem String_mk_data (p : String) : String.mk p.data = p := rfl

/-- Full characterization of the extractor, matching Python regex semantics
of `re.match(r"(.+)_kwargs$", s)`. -/
theorem extract_eq_some_iff (s p : String) :
    extract_prefix_before_kwargs s = some p ↔
      p.data ≠ [] ∧ '\n' ∉ p.data ∧
        (s.data = p.data ++ kwargsMarker ∨
         s.data = p.data ++ kwargsMarker ++ ['\n']) := by
  unfold extract_prefix_before_kwargs
  by_cases hl : s.data.getLast? = some '\n'
  · -- trailing newline: the dollar matches just before it
    obtain ⟨ys, hys⟩ := List.getLast?_eq_some_iff.mp hl
    simp only [hl, if_true]
    have hdrop : s.data.dropLast = ys := by rw [hys, List.dropLast_concat]
    rw [hdrop]
    constructor
    · intro h
      split at h
      · rename_i hcond
        obtain ⟨q, hq1, hq2, hqe, hqt⟩ := (extract_core_iff ys).mp hcond
        rw [hqt] at h
        have hpq : q = p.data := by
          have := Option.some.inj h
          exact congrArg String.data this.symm ▸ rfl
        subst hpq
        exact ⟨hq1, hq2, Or.inr (by rw [hys, hqe])⟩
      · exact absurd h (by simp)
    · rintro ⟨h1, h2, h3 | h3⟩
      · -- impossible: the string would end in the letter s, not a newline
        exfalso
        rw [h3] at hl
        rw [List.getLast?_append] at hl
        rw [marker_getLast?] at hl
        simp at hl
      · have hys' : ys = p.data ++ kwargsMarker := by
          rw [hys] at h3
          exact List.append_inj_left' h3 rfl
        have hcond := (extract_core_iff ys).mpr ⟨p.data, h1, h2, hys', by
          rw [hys', List.length_append, kwargsMarker_length, Nat.add_sub_cancel,
            List.take_left]⟩
        rw [if_pos hcond]
        have : List.take (ys.length - 7) ys = p.data := by
          rw [hys', List.length_append, kwargsMarker_length, Nat.add_sub_cancel,
            List.take_left]
        rw [this, String_mk_data]
  · -- no trailing newline: the dollar matches at the very end
    simp only [if_neg hl]
    constructor
    · intro h
      split at h
      · rename_i hcond
        obtain ⟨q, hq1, hq2, hqe, hqt⟩ := (extract_core_iff s.data).mp hcond
        rw [hqt] at h
        have hpq : q = p.data := by
          have := Option.some.inj h
          exact congrArg String.data this.symm ▸ rfl
        subst hpq
        exact ⟨hq1, hq2, Or.inl hqe⟩
      · exact absurd h (by simp)
    · rintro ⟨h1, h2, h3 | h3⟩
      · have htk : List.take (s.data.length - 7) s.data = p.data := by
          rw [h3, List.length_append, kwargsMarker_length, Nat.add_sub_cancel,
            List.take_left]
        have hcond := (extract_core_iff s.data).mpr ⟨p.data, h1, h2, h3, htk⟩
        rw [if_pos hcond, htk, String_mk_data]
      · exfalso
        apply hl
        rw [h3, List.getLast?_concat]

/-! ### Lemmas about the dependency-instantiation loop -/

/-- A prefix of keys that all resolve is processed without error: the loop
then continues on the remaining keys with some updated attribute dict. -/
theorem processDeps_append (cls : PyClass) (a : List (String × DepInstance))
    (pre rest : List (String × Nat))
    (h : ∀ p ∈ pre, resolves cls p.1 = true) :
    ∃ a2, processDeps cls a (pre ++ rest) = processDeps cls a2 rest := by
  induction pre generalizing a with
  | nil => exact ⟨a, rfl⟩
  | cons p pre ih =>
    obtain ⟨key, bundle⟩ := p
    have hr := h (key, bundle) (List.mem_cons_self _ _)
    cases he : extract_prefix_before_kwargs key with
    | none =>
      simp only [resolves, he] at hr
      exact absurd hr (by simp)
    | some tag =>
      simp only [resolves, he] at hr
      cases hd : lookupDict cls.declared_dependencies tag with
      | none => rw [hd] at hr; simp at hr
      | some c =>
        rw [List.cons_append]
        simp only [processDeps, he, hd]
        exact ih _ (fun q hq => h q (List.mem_cons_of_mem _ hq))

/-- If the loop finishes, every processed key was well-formed and declared. -/
theorem processDeps_ok_resolves (cls : PyClass)
    (a b : List (String × DepInstance)) (l : List (String × Nat))
    (hok : processDeps cls a l = .ok b) :
    ∀ p ∈ l, resolves cls p.1 = true := by
  induction l generalizing a with
  | nil => intro p hp; cases hp
  | cons q rest ih =>
    obtain ⟨key, bundle⟩ := q
    intro p hp
    cases he : extract_prefix_before_kwargs key with
    | none =>
      simp only [processDeps, he] at hok
      exact absurd hok (by simp)
    | some tag =>
      cases hd : lookupDict cls.declared_dependencies tag with
      | none =>
        simp only [processDeps, he, hd] at hok
        exact absurd hok (by simp)
      | some c =>
        simp only [processDeps, he, hd] at hok
        rcases List.mem_cons.mp hp with rfl | hp'
        · simp only [resolves, he, hd, Option.isSome_some]
        · exact ih _ hok p hp'

/-- Attribute names whose tag is produced by no processed key are untouched
by the loop. -/
theorem processDeps_frame (cls : PyClass) (a b : List (String × DepInstance))
    (l : List (String × Nat)) (x : String)
    (hok : processDeps cls a l = .ok b)
    (hx : ∀ p ∈ l, ∀ t, extract_prefix_before_kwargs p.1 = some t → t ≠ x) :
    lookupDict b x = lookupDict a x := by
  induction l generalizing a with
  | nil => cases hok; rfl
  | cons q rest ih =>
    obtain ⟨key, bundle⟩ := q
    cases he : extract_prefix_before_kwargs key with
    | none =>
      simp only [processDeps, he] at hok
      exact absurd hok (by simp)
    | some tag =>
      cases hd : lookupDict cls.declared_dependencies tag with
      | none =>
        simp only [processDeps, he, hd] at hok
        exact absurd hok (by simp)
      | some c =>
        simp only [processDeps, he, hd] at hok
        have := ih _ hok (fun p hp => hx p (List.mem_cons_of_mem _ hp))
        rw [this, lookupDict_dictInsert]
        have hne : tag ≠ x := hx (key, bundle) (List.mem_cons_self _ _) tag he
        simp [hne]

/-- On success with pairwise-distinct tags, every processed key has left the
instance of its registered class, built with its own bundle, under its bare
name. -/
theorem processDeps_ok_attr (cls : PyClass)
    (a b : List (String × DepInstance)) (l : List (String × Nat))
    (hok : processDeps cls a l = .ok b)
    (hnd : (l.map (fun p => extract_prefix_before_kwargs p.1)).Nodup) :
    ∀ k bu, (k, bu) ∈ l → ∃ t c, extract_prefix_before_kwargs k = some t ∧
      lookupDict cls.declared_dependencies t = some c ∧
      lookupDict b t = some ⟨c, bu⟩ := by
  induction l generalizing a with
  | nil => intro k bu hk; cases hk
  | cons q rest ih =>
    obtain ⟨key, bundle⟩ := q
    intro k bu hk
    cases he : extract_prefix_before_kwargs key with
    | none =>
      simp only [processDeps, he] at hok
      exact absurd hok (by simp)
    | some tag =>
      cases hd : lookupDict cls.declared_dependencies tag with
      | none =>
        simp only [processDeps, he, hd] at hok
        exact absurd hok (by simp)
      | some c =>
        simp only [processDeps, he, hd] at hok
        have hnd' := hnd
        rw [List.map_cons, List.nodup_cons] at hnd'
        rcases List.mem_cons.mp hk with hkk | hk'
        · obtain ⟨rfl, rfl⟩ : key = k ∧ bundle = bu := by
            exact ⟨congrArg Prod.fst hkk.symm, congrArg Prod.snd hkk.symm⟩
          refine ⟨tag, c, he, hd, ?_⟩
          have hfr : lookupDict b tag =
              lookupDict (dictInsert a tag ⟨c, bundle⟩) tag := by
            apply processDeps_frame cls _ b rest tag hok
            intro p hp t hpt ht
            subst ht
            exact hnd'.1 (he ▸ hpt ▸ List.mem_map_of_mem _ hp)
          rw [hfr, lookupDict_dictInsert]
          simp
        · exact ih _ hok hnd'.2 k bu hk'

/-- The attribute names present after a successful run of the loop are
exactly the tags of the processed keys plus the previously present names. -/
theorem processDeps_ok_domain (cls : PyClass)
    (a b : List (String × DepInstance)) (l : List (String × Nat))
    (hok : processDeps cls a l = .ok b) :
    ∀ x, (lookupDict b x).isSome ↔
      (∃ p ∈ l, extract_prefix_before_kwargs p.1 = some x) ∨
        (lookupDict a x).isSome := by
  induction l generalizing a with
  | nil => cases hok; simp
  | cons q rest ih =>
    obtain ⟨key, bundle⟩ := q
    intro x
    cases he : extract_prefix_before_kwargs key with
    | none =>
      simp only [processDeps, he] at hok
      exact absurd hok (by simp)
    | some tag =>
      cases hd : lookupDict cls.declared_dependencies tag with
      | none =>
        simp only [processDeps, he, hd] at hok
        exact absurd hok (by simp)
      | some c =>
        simp only [processDeps, he, hd] at hok
        rw [ih _ hok x]
        rw [lookupDict_dictInsert]
        by_cases hx : tag = x
        · subst hx
          simp only [List.mem_cons]
          constructor
          · intro _
            exact Or.inl ⟨(key, bundle), Or.inl rfl, he⟩
          · intro _
            simp
        · have hb : (tag == x) = false := by simp [hx]
          simp only [hb, Bool.false_eq_true, if_false, List.mem_cons]
          constructor
          · rintro (⟨p, hp, hpt⟩ | hs)
            · exact Or.inl ⟨p, Or.inr hp, hpt⟩
            · exact Or.inr hs
          · rintro (⟨p, hp | hp, hpt⟩ | hs)
            · exfalso
              apply hx
              have : p = (key, bundle) := hp
              rw [this] at hpt
              rw [he] at hpt
              exact (Option.some.inj hpt)
            · exact Or.inl ⟨p, hp, hpt⟩
            · exact Or.inr hs

/-! ### Lemmas about wiring and the class store -/

theorem contains_eq_true_iff {α : Type} [BEq α] [LawfulBEq α]
    (l : List α) (a : α) : l.contains a = true ↔ a ∈ l := by
  simp [List.contains_eq_any_beq, List.any_eq_true]

/-- Names present in the normalized registry are exactly the lower-casings
of the supplied binding names. -/
theorem mem_dictKeys_normalizeBindings (deps : List (String × Nat))
    (k : String) :
    k ∈ dictKeys (normalizeBindings deps) ↔
      k ∈ (dictKeys deps).map strLower := by
  have hgen : ∀ (l : List (String × Nat)) (acc : List (String × Nat)),
      k ∈ dictKeys (l.foldl (fun acc p => dictInsert acc (strLower p.1) p.2) acc) ↔
        k ∈ dictKeys acc ∨ k ∈ (dictKeys l).map strLower := by
    intro l
    induction l with
    | nil => intro acc; simp [dictKeys]
    | cons p rest ih =>
      intro acc
      obtain ⟨nm, v⟩ := p
      rw [List.foldl_cons, ih]
      rw [mem_dictKeys_dictInsert]
      simp only [dictKeys, List.map_cons, List.mem_cons]
      tauto
  rw [normalizeBindings, hgen]
  simp [dictKeys]

/-- In a well-formed store the allocation identifier is unbound. -/
theorem lookupDict_fresh (h : ClassHeap) (hwf : heapWF h) :
    lookupDict h.classes h.next = none := by
  cases hx : lookupDict h.classes h.next with
  | none => rfl
  | some c =>
    exfalso
    have hm : h.next ∈ dictKeys h.classes :=
      (mem_dictKeys_iff _ _).mpr (by simp [hx])
    simp only [dictKeys] at hm
    obtain ⟨p, hp, hpe⟩ := List.mem_map.mp hm
    have := hwf p hp
    omega

/-- Successful wiring, explicitly. -/
theorem wire_ok (h : ClassHeap) (b : Nat) (base : PyClass)
    (deps : List (String × Nat))
    (hb : lookupDict h.classes b = some base)
    (hm : missingRegistry (wiredClass base deps) = []) :
    wire_dependencies h b deps =
      .ok (h.next, ⟨h.classes ++ [(h.next, wiredClass base deps)], h.next + 1⟩) := by
  unfold wire_dependencies
  rw [hb]
  simp [hm]

/-- Failing wiring, explicitly. -/
theorem wire_error (h : ClassHeap) (b : Nat) (base : PyClass)
    (deps : List (String × Nat))
    (hb : lookupDict h.classes b = some base)
    (hm : missingRegistry (wiredClass base deps) ≠ []) :
    wire_dependencies h b deps = .error (.configurationError base.name
      (sortStr (missingRegistry (wiredClass base deps)))) := by
  unfold wire_dependencies
  rw [hb]
  simp [hm]

/-- Inversion of a successful wiring. -/
theorem wire_ok_inv (h : ClassHeap) (b : Nat) (base : PyClass)
    (deps : List (String × Nat)) (i : Nat) (h' : ClassHeap)
    (hb : lookupDict h.classes b = some base)
    (hok : wire_dependencies h b deps = .ok (i, h')) :
    missingRegistry (wiredClass base deps) = [] ∧ i = h.next ∧
      h' = ⟨h.classes ++ [(h.next, wiredClass base deps)], h.next + 1⟩ := by
  by_cases hm : missingRegistry (wiredClass base deps) = []
  · rw [wire_ok h b base deps hb hm] at hok
    obtain ⟨h1, h2⟩ := Prod.mk.injEq .. ▸ (Except.ok.inj hok)
    exact ⟨hm, h1.symm, h2.symm⟩
  · rw [wire_error h b base deps hb hm] at hok
    exact absurd hok (by simp)

/-- If the supplied names are a strict subset of the required names, the
completeness check of `wire_dependencies` fails. -/
theorem missingRegistry_ne_nil_of_ssubset (base : PyClass)
    (deps : List (String × Nat))
    (hsub : (dictKeys deps).toFinset ⊂ base.required_dependencies.toFinset) :
    missingRegistry (wiredClass base deps) ≠ [] := by
  intro hm
  have hall : ∀ d ∈ base.required_dependencies,
      d ∈ (dictKeys deps).map strLower := by
    intro d hd
    by_contra hnd
    have hmem : d ∈ missingRegistry (wiredClass base deps) := by
      simp only [missingRegistry, wiredClass, List.mem_filter]
      refine ⟨hd, ?_⟩
      simp only [Bool.not_eq_true']
      cases hc : (dictKeys (normalizeBindings deps)).contains d with
      | false => rfl
      | true =>
        exfalso
        exact hnd ((mem_dictKeys_normalizeBindings deps d).mp
          ((contains_eq_true_iff _ _).mp hc))
    rw [hm] at hmem
    cases hmem
  have hsubF : base.required_dependencies.toFinset ⊆
      ((dictKeys deps).map strLower).toFinset := by
    intro d hd
    exact List.mem_toFinset.mpr (hall d (List.mem_toFinset.mp hd))
  have himg : ((dictKeys deps).map strLower).toFinset =
      (dictKeys deps).toFinset.image strLower := by
    ext a
    simp
  have h1 : base.required_dependencies.toFinset.card ≤
      ((dictKeys deps).map strLower).toFinset.card :=
    Finset.card_le_card hsubF
  have h2 : ((dictKeys deps).toFinset.image strLower).card ≤
      (dictKeys deps).toFinset.card := Finset.card_image_le
  have h3 : (dictKeys deps).toFinset.card <
      base.required_dependencies.toFinset.card := Finset.card_lt_card hsub
  rw [himg] at h1
  omega

theorem wiredClass_declared (base : PyClass) (deps : List (String × Nat)) :
    (wiredClass base deps).declared_dependencies = normalizeBindings deps := rfl

theorem wiredClass_required (base : PyClass) (deps : List (String × Nat)) :
    (wiredClass base deps).required_dependencies = base.required_dependencies := rfl

theorem mem_missingRegistry (cls : PyClass) (x : String) :
    x ∈ missingRegistry cls ↔
      x ∈ cls.required_dependencies ∧ x ∉ dictKeys cls.declared_dependencies := by
  simp only [missingRegistry, List.mem_filter, Bool.not_eq_true']
  constructor
  · rintro ⟨h1, h2⟩
    refine ⟨h1, fun hm => ?_⟩
    rw [(contains_eq_true_iff _ _).mpr hm] at h2
    cases h2
  · rintro ⟨h1, h2⟩
    refine ⟨h1, ?_⟩
    cases hc : (dictKeys cls.declared_dependencies).contains x with
    | false => rfl
    | true => exact absurd ((contains_eq_true_iff _ _).mp hc) h2

theorem mem_missingBundles (cls : PyClass) (kwargs : List (String × Nat))
    (x : String) :
    x ∈ missingBundles cls kwargs ↔
      x ∈ cls.required_dependencies ∧ (x ++ "_kwargs") ∉ dictKeys kwargs := by
  simp only [missingBundles, List.mem_filter, Bool.not_eq_true']
  constructor
  · rintro ⟨h1, h2⟩
    refine ⟨h1, fun hm => ?_⟩
    rw [(contains_eq_true_iff _ _).mpr hm] at h2
    cases h2
  · rintro ⟨h1, h2⟩
    refine ⟨h1, ?_⟩
    cases hc : (dictKeys kwargs).contains (x ++ "_kwargs") with
    | false => rfl
    | true => exact absurd ((contains_eq_true_iff _ _).mp hc) h2

theorem new_guard_error (cls : PyClass)
    (hreq : cls.required_dependencies ≠ [])
    (hm : missingRegistry cls ≠ []) :
    new_guard cls =
      .error (.configurationError cls.name (sortStr (missingRegistry cls))) := by
  unfold new_guard
  rw [if_pos hreq, if_pos hm]

theorem new_guard_ok (cls : PyClass) (hm : missingRegistry cls = []) :
    new_guard cls = .ok () := by
  unfold new_guard
  by_cases hreq : cls.required_dependencies ≠ []
  · rw [if_pos hreq, if_neg (by simp [hm])]
  · rw [if_neg hreq]

theorem instantiate_missing_error (cls : PyClass)
    (attrs : List (String × DepInstance)) (kwargs : List (String × Nat))
    (hm : missingBundles cls kwargs ≠ []) :
    instantiate_dependencies cls attrs kwargs =
      .error (.missingArgumentsError cls.name (sortStr (missingBundles cls kwargs))) := by
  unfold instantiate_dependencies
  rw [if_pos hm]

theorem instantiate_ok_inv (cls : PyClass)
    (attrs0 attrs : List (String × DepInstance)) (kwargs : List (String × Nat))
    (hok : instantiate_dependencies cls attrs0 kwargs = .ok attrs) :
    missingBundles cls kwargs = [] ∧ processDeps cls attrs0 kwargs = .ok attrs := by
  unfold instantiate_dependencies at hok
  by_cases hm : missingBundles cls kwargs ≠ []
  · rw [if_pos hm] at hok
    exact absurd hok (by simp)
  · push_neg at hm
    rw [if_neg (by simp [hm])] at hok
    exact ⟨hm, hok⟩

theorem instantiate_no_missing (cls : PyClass)
    (attrs : List (String × DepInstance)) (kwargs : List (String × Nat))
    (hm : missingBundles cls kwargs = []) :
    instantiate_dependencies cls attrs kwargs = processDeps cls attrs kwargs := by
  unfold instantiate_dependencies
  rw [if_neg (by simp [hm])]

/-! ### The claims -/

/-- C1: for every component class whose required-dependency set is non-empty
and whose registry lacks an entry for some required name, every construction
attempt fails with the configuration error (`TypeError`) identifying the
class and exactly the missing names, and the `__init__` body — here an
arbitrary computation `init` — is never executed: the outcome is the guard
error whatever `init` would do.  With an empty registry (a plain abstract
base class) the hypotheses always hold, so direct construction always fails
this way. -/
theorem c1_unwired_construction_always_fails {α : Type} (cls : PyClass)
    (init : Except PmdiError α)
    (hreq : cls.required_dependencies ≠ [])
    (hmiss : ∃ d ∈ cls.required_dependencies,
      d ∉ dictKeys cls.declared_dependencies) :
    ∃ missing, missing ≠ [] ∧
      construct cls init = .error (.configurationError cls.name missing) ∧
      (∀ x, x ∈ missing ↔ x ∈ cls.required_dependencies ∧
        x ∉ dictKeys cls.declared_dependencies) := by
  have hm : missingRegistry cls ≠ [] := by
    obtain ⟨d, hd1, hd2⟩ := hmiss
    intro hnil
    have : d ∈ missingRegistry cls := (mem_missingRegistry cls d).mpr ⟨hd1, hd2⟩
    rw [hnil] at this
    cases this
  refine ⟨sortStr (missingRegistry cls), ?_, ?_, ?_⟩
  · rw [Ne, sortStr_eq_nil_iff]
    exact hm
  · unfold construct
    rw [new_guard_error cls hreq hm]
  · intro x
    rw [mem_sortStr, mem_missingRegistry]

/-- Witness for C1: constructing the unwired `EngineBase` directly (its
`__init__` would call the instantiator with a cylinder bundle) fails with
the configuration error naming `cylinder`. -/
theorem c1_witness : ∃ missing, missing ≠ [] ∧
    construct EngineBase
        (instantiate_dependencies EngineBase [] [("cylinder_kwargs", 0)]) =
      .error (.configurationError EngineBase.name missing) ∧
    (∀ x, x ∈ missing ↔ x ∈ EngineBase.required_dependencies ∧
      x ∉ dictKeys EngineBase.declared_dependencies) :=
  c1_unwired_construction_always_fails EngineBase _ (by decide) (by decide)

/-- C4: when some required name has no `<name>_kwargs` key among the
supplied bundles, the instantiator fails with the batch missing joint
arguments error, listing exactly the required names without a bundle — for
any attribute state and any bundle contents, malformed or not, so the check
precedes per-key processing and nothing is constructed or attached. -/
theorem c4_missing_bundles_fail_batch (cls : PyClass)
    (attrs : List (String × DepInstance)) (kwargs : List (String × Nat))
    (hmiss : ∃ d ∈ cls.required_dependencies,
      (d ++ "_kwargs") ∉ dictKeys kwargs) :
    ∃ missing, missing ≠ [] ∧
      instantiate_dependencies cls attrs kwargs =
        .error (.missingArgumentsError cls.name missing) ∧
      (∀ x, x ∈ missing ↔ x ∈ cls.required_dependencies ∧
        (x ++ "_kwargs") ∉ dictKeys kwargs) := by
  have hm : missingBundles cls kwargs ≠ [] := by
    obtain ⟨d, hd1, hd2⟩ := hmiss
    intro hnil
    have : d ∈ missingBundles cls kwargs :=
      (mem_missingBundles cls kwargs d).mpr ⟨hd1, hd2⟩
    rw [hnil] at this
    cases this
  refine ⟨sortStr (missingBundles cls kwargs), ?_, ?_, ?_⟩
  · rw [Ne, sortStr_eq_nil_iff]
    exact hm
  · exact instantiate_missing_error cls attrs kwargs hm
  · intro x
    rw [mem_sortStr, mem_missingBundles]

/-- Witness for C4, scenario B of the specification: constructing the wired
engine while omitting `cylinder_kwargs` reports `cylinder` as missing. -/
theorem c4_witness : ∃ missing, missing ≠ [] ∧
    instantiate_dependencies EngineWired [] [] =
      .error (.missingArgumentsError EngineWired.name missing) ∧
    (∀ x, x ∈ missing ↔ x ∈ EngineWired.required_dependencies ∧
      (x ++ "_kwargs") ∉ dictKeys ([] : List (String × Nat))) :=
  c4_missing_bundles_fail_batch EngineWired [] [] (by decide)

/-- C8: a tagged key that does not decompose by the naming convention is
fatal.  First part: once the batch bundle check has passed and every key
processed before it has resolved, the loop fails on the malformed key with
the naming error identifying exactly that key.  Second part: a call that
returns successfully processed only well-formed keys, so no instance is
ever constructed from a malformed key. -/
theorem c8_malformed_key_naming_error :
    (∀ (cls : PyClass) (attrs : List (String × DepInstance))
      (pre post : List (String × Nat)) (k : String) (bu : Nat),
      missingBundles cls (pre ++ (k, bu) :: post) = [] →
      (∀ p ∈ pre, resolves cls p.1 = true) →
      extract_prefix_before_kwargs k = none →
      instantiate_dependencies cls attrs (pre ++ (k, bu) :: post) =
        .error (.namingError k)) ∧
    (∀ (cls : PyClass) (attrs attrs' : List (String × DepInstance))
      (kwargs : List (String × Nat)),
      instantiate_dependencies cls attrs kwargs = .ok attrs' →
      ∀ p ∈ kwargs, extract_prefix_before_kwargs p.1 ≠ none) := by
  constructor
  · intro cls attrs pre post k bu hwf hpre hk
    rw [instantiate_no_missing cls attrs _ hwf]
    obtain ⟨a2, ha2⟩ := processDeps_append cls attrs pre ((k, bu) :: post) hpre
    rw [ha2]
    simp only [processDeps, hk]
  · intro cls attrs attrs' kwargs hok p hp hnone
    obtain ⟨_, hpd⟩ := instantiate_ok_inv cls attrs attrs' kwargs hok
    have := processDeps_ok_resolves cls attrs attrs' kwargs hpd p hp
    simp only [resolves, hnone] at this
    exact absurd this (by simp)

/-- Witness for C8, scenario D of the specification: a malformed key
(missing the `_kwargs` suffix) supplied next to the well-formed cylinder
bundle makes construction of the wired engine fail with the naming error. -/
theorem c8_witness :
    instantiate_dependencies EngineWired [] [("cylinder_kwargs", 5), ("bad", 0)] =
      .error (.namingError "bad") :=
  c8_malformed_key_naming_error.1 EngineWired [] [("cylinder_kwargs", 5)] []
    "bad" 0 (by decide) (by decide) (by decide)

/-- C9: a well-formed tagged key whose bare name is not declared in the
registry is fatal.  First part: once the batch bundle check has passed and
every key processed before it has resolved, the loop fails on that key with
the unresolved-dependency error naming the bare name and the owning class.
Second part: a call that returns successfully resolved every bare name in
the registry, so no instance is ever constructed for an undeclared name. -/
theorem c9_undeclared_name_unresolved_error :
    (∀ (cls : PyClass) (attrs : List (String × DepInstance))
      (pre post : List (String × Nat)) (k t : String) (bu : Nat),
      missingBundles cls (pre ++ (k, bu) :: post) = [] →
      (∀ p ∈ pre, resolves cls p.1 = true) →
      extract_prefix_before_kwargs k = some t →
      lookupDict cls.declared_dependencies t = none →
      instantiate_dependencies cls attrs (pre ++ (k, bu) :: post) =
        .error (.unresolvedDependencyError t cls.name)) ∧
    (∀ (cls : PyClass) (attrs attrs' : List (String × DepInstance))
      (kwargs : List (String × Nat)),
      instantiate_dependencies cls attrs kwargs = .ok attrs' →
      ∀ p ∈ kwargs, ∀ t, extract_prefix_before_kwargs p.1 = some t →
        (lookupDict cls.declared_dependencies t).isSome) := by
  constructor
  · intro cls attrs pre post k t bu hwf hpre hk ht
    rw [instantiate_no_missing cls attrs _ hwf]
    obtain ⟨a2, ha2⟩ := processDeps_append cls attrs pre ((k, bu) :: post) hpre
    rw [ha2]
    simp only [processDeps, hk, ht]
  · intro cls attrs attrs' kwargs hok p hp t ht
    obtain ⟨_, hpd⟩ := instantiate_ok_inv cls attrs attrs' kwargs hok
    have := processDeps_ok_resolves cls attrs attrs' kwargs hpd p hp
    simp only [resolves, ht] at this
    exact this

/-- Witness for C9: a bundle tagged `bumper_kwargs` supplied to the wired
engine (whose registry only declares `cylinder`) makes construction fail
with the unresolved-dependency error naming `bumper` and the class. -/
theorem c9_witness :
    instantiate_dependencies EngineWired []
        [("cylinder_kwargs", 5), ("bumper_kwargs", 1)] =
      .error (.unresolvedDependencyError "bumper" EngineWired.name) :=
  c9_undeclared_name_unresolved_error.1 EngineWired [] [("cylinder_kwargs", 5)]
    [] "bumper_kwargs" "bumper" 1 (by decide) (by decide) (by decide) (by decide)

/-- Counterexample to C2 as stated.  `BaseAB` requires `{"A", "b"}`; the
wiring call supplies only the name `"A"` — a strict subset of the required
names.  C2 claims the reported still-unwired set then equals
`required minus supplied`, i.e. `{"b"}`.  The code lower-cases the supplied
name to `"a"` before comparing, so it reports `{"A", "b"}`: the reported
list contains `"A"` even though `"A"` was supplied. -/
theorem c2_counterexample :
    wire_dependencies demoHeap 2 [("A", 5)] =
      .error (.configurationError "BaseAB" ["A", "b"]) ∧
    (dictKeys [(("A" : String), (5 : Nat))]).toFinset ⊂
      BaseAB.required_dependencies.toFinset ∧
    "A" ∈ (["A", "b"] : List String) ∧
    "A" ∈ dictKeys [(("A" : String), (5 : Nat))] := by
  refine ⟨by rfl, ?_, by decide, by decide⟩
  decide

/-- C2 amended: for every wiring call whose supplied names are a strict
subset of the required names, the call fails with the configuration error
and no wired type is returned; the reported still-unwired set equals (as a
set) the required names minus the *lower-cased* supplied names — which
coincides with `required minus supplied` whenever the required names touched
by the subset are already lower-case. -/
theorem c2_strict_subset_wiring_fails (h : ClassHeap) (b : Nat)
    (base : PyClass) (deps : List (String × Nat))
    (hb : lookupDict h.classes b = some base)
    (hsub : (dictKeys deps).toFinset ⊂ base.required_dependencies.toFinset) :
    ∃ missing, missing ≠ [] ∧
      wire_dependencies h b deps =
        .error (.configurationError base.name missing) ∧
      (∀ x, x ∈ missing ↔ x ∈ base.required_dependencies ∧
        x ∉ (dictKeys deps).map strLower) := by
  have hm := missingRegistry_ne_nil_of_ssubset base deps hsub
  refine ⟨sortStr (missingRegistry (wiredClass base deps)), ?_,
    wire_error h b base deps hb hm, ?_⟩
  · rw [Ne, sortStr_eq_nil_iff]
    exact hm
  · intro x
    rw [mem_sortStr, mem_missingRegistry, wiredClass_required, wiredClass_declared]
    constructor
    · rintro ⟨h1, h2⟩
      exact ⟨h1, fun hmm =>
        h2 ((mem_dictKeys_normalizeBindings deps x).mpr hmm)⟩
    · rintro ⟨h1, h2⟩
      exact ⟨h1, fun hmm =>
        h2 ((mem_dictKeys_normalizeBindings deps x).mp hmm)⟩

/-- Witness for the amended C2: wiring `EngineBase` with no bindings at all
(the empty set is a strict subset of the required names) fails, reporting
exactly `cylinder`. -/
theorem c2_witness : ∃ missing, missing ≠ [] ∧
    wire_dependencies demoHeap 0 [] =
      .error (.configurationError EngineBase.name missing) ∧
    (∀ x, x ∈ missing ↔ x ∈ EngineBase.required_dependencies ∧
      x ∉ (dictKeys ([] : List (String × Nat))).map strLower) :=
  c2_strict_subset_wiring_fails demoHeap 0 EngineBase [] (by decide) (by decide)

/-- Counterexample to C3 as stated.  `BaseA` requires `{"A"}`; the wiring
call supplies the names `{"A", "b"}` — a strict superset of the required
names.  C3 claims the call then succeeds.  The code lower-cases the
supplied names to `{"a", "b"}` before validating, `"A"` is not among them,
and the call fails with the configuration error instead. -/
theorem c3_counterexample :
    BaseA.required_dependencies.toFinset ⊂
      (dictKeys [(("A" : String), (1 : Nat)), ("b", 2)]).toFinset ∧
    wire_dependencies demoHeap 3 [("A", 1), ("b", 2)] =
      .error (.configurationError "BaseA" ["A"]) := by
  refine ⟨by decide, by rfl⟩

/-- C3 amended: for every wiring call whose supplied names, after
lower-casing, form a strict superset of the required names, the call
succeeds; the returned concrete class passes the construction guard,
inherits the requirements and the base name suffixed with `Wired`, and its
registry is exactly the lower-cased supplied bindings — its names are
precisely the lower-casings of the supplied names, no more and no less. -/
theorem c3_normalized_superset_wiring_succeeds (h : ClassHeap) (b : Nat)
    (base : PyClass) (deps : List (String × Nat))
    (hwf : heapWF h)
    (hb : lookupDict h.classes b = some base)
    (hsup : base.required_dependencies.toFinset ⊂
      ((dictKeys deps).map strLower).toFinset) :
    ∃ c : PyClass,
      wire_dependencies h b deps =
        .ok (h.next, ⟨h.classes ++ [(h.next, c)], h.next + 1⟩) ∧
      lookupDict (h.classes ++ [(h.next, c)]) h.next = some c ∧
      new_guard c = .ok () ∧
      c.declared_dependencies = normalizeBindings deps ∧
      (∀ k, k ∈ dictKeys c.declared_dependencies ↔
        k ∈ (dictKeys deps).map strLower) ∧
      c.required_dependencies = base.required_dependencies ∧
      c.name = base.name ++ "Wired" := by
  have hmm : missingRegistry (wiredClass base deps) = [] := by
    rw [missingRegistry, wiredClass_required, wiredClass_declared,
      List.filter_eq_nil_iff]
    intro d hd
    have hdl : d ∈ (dictKeys deps).map strLower :=
      List.mem_toFinset.mp (hsup.1 (List.mem_toFinset.mpr hd))
    have : d ∈ dictKeys (normalizeBindings deps) :=
      (mem_dictKeys_normalizeBindings deps d).mpr hdl
    rw [(contains_eq_true_iff _ _).mpr this]
    simp
  refine ⟨wiredClass base deps, wire_ok h b base deps hb hmm, ?_, ?_, rfl, ?_,
    rfl, rfl⟩
  · rw [lookupDict_append, lookupDict_fresh h hwf, lookupDict_cons]
    simp
  · exact new_guard_ok _ hmm
  · intro k
    rw [wiredClass_declared]
    exact mem_dictKeys_normalizeBindings deps k

/-- Witness for the amended C3: wiring `EngineBase` with bindings for
`CYLINDER` (upper-case, normalized to the required `cylinder`) and an extra
`bumper` succeeds and yields a guard-passing class whose registry names are
exactly `cylinder` and `bumper`. -/
theorem c3_witness : ∃ c : PyClass,
    wire_dependencies demoHeap 0 [("CYLINDER", 1), ("bumper", 2)] =
      .ok (demoHeap.next,
        ⟨demoHeap.classes ++ [(demoHeap.next, c)], demoHeap.next + 1⟩) ∧
    lookupDict (demoHeap.classes ++ [(demoHeap.next, c)]) demoHeap.next =
      some c ∧
    new_guard c = .ok () ∧
    c.declared_dependencies = normalizeBindings [("CYLINDER", 1), ("bumper", 2)] ∧
    (∀ k, k ∈ dictKeys c.declared_dependencies ↔
      k ∈ (dictKeys [(("CYLINDER" : String), (1 : Nat)), ("bumper", 2)]).map strLower) ∧
    c.required_dependencies = EngineBase.required_dependencies ∧
    c.name = EngineBase.name ++ "Wired" :=
  c3_normalized_superset_wiring_succeeds demoHeap 0 EngineBase
    [("CYLINDER", 1), ("bumper", 2)] (by unfold heapWF; decide) (by decide)
    (by decide)

theorem heapWF_snoc (h : ClassHeap) (c : PyClass) (hwf : heapWF h) :
    heapWF ⟨h.classes ++ [(h.next, c)], h.next + 1⟩ := by
  intro p hp
  rcases List.mem_append.mp hp with hp1 | hp2
  · have := hwf p hp1
    show p.1 < h.next + 1
    omega
  · rcases List.mem_singleton.mp hp2 with rfl
    show h.next < h.next + 1
    omega

/-- C6: wiring is isolating and non-mutating.  Two successive wirings of
the same base class allocate distinct class objects; every class present
before (the base in particular) is unchanged afterwards; and each of the
two wired classes carries its own registry, holding exactly its own
normalized bindings.  Instance construction never touches the class store
at all (`construct` and `instantiate_dependencies` act on a single class
value and an instance attribute dict), so using one sibling cannot affect
the other. -/
theorem c6_wiring_isolated_nonmutating (h : ClassHeap) (b : Nat)
    (base : PyClass) (d1 d2 : List (String × Nat)) (i1 i2 : Nat)
    (h1 h2 : ClassHeap)
    (hwf : heapWF h)
    (hb : lookupDict h.classes b = some base)
    (hw1 : wire_dependencies h b d1 = .ok (i1, h1))
    (hw2 : wire_dependencies h1 b d2 = .ok (i2, h2)) :
    i1 ≠ i2 ∧
    (∀ j, (lookupDict h.classes j).isSome →
      lookupDict h2.classes j = lookupDict h.classes j) ∧
    lookupDict h2.classes b = some base ∧
    (∃ c1, lookupDict h2.classes i1 = some c1 ∧
      c1.declared_dependencies = normalizeBindings d1) ∧
    (∃ c2, lookupDict h2.classes i2 = some c2 ∧
      c2.declared_dependencies = normalizeBindings d2) := by
  obtain ⟨hm1, hi1, hh1⟩ := wire_ok_inv h b base d1 i1 h1 hb hw1
  subst hi1
  subst hh1
  have hwf1 : heapWF ⟨h.classes ++ [(h.next, wiredClass base d1)], h.next + 1⟩ :=
    heapWF_snoc h _ hwf
  have hb1 : lookupDict (h.classes ++ [(h.next, wiredClass base d1)]) b =
      some base := by
    rw [lookupDict_append, hb]
    rfl
  obtain ⟨hm2, hi2, hh2⟩ := wire_ok_inv _ b base d2 i2 h2 hb1 hw2
  subst hi2
  subst hh2
  refine ⟨show h.next ≠ h.next + 1 by omega, ?_, ?_, ?_, ?_⟩
  · intro j hj
    cases hx : lookupDict h.classes j with
    | none => rw [hx] at hj; cases hj
    | some cj =>
      rw [lookupDict_append, lookupDict_append, hx]
      rfl
  · rw [lookupDict_append, lookupDict_append, hb]
    rfl
  · refine ⟨wiredClass base d1, ?_, wiredClass_declared base d1⟩
    rw [lookupDict_append, lookupDict_append, lookupDict_fresh h hwf,
      lookupDict_cons]
    simp only [beq_self_eq_true, if_true]
    rfl
  · refine ⟨wiredClass base d2, ?_, wiredClass_declared base d2⟩
    show lookupDict (_ ++ [((⟨h.classes ++ [(h.next, wiredClass base d1)],
      h.next + 1⟩ : ClassHeap).next, wiredClass base d2)]) _ = _
    rw [lookupDict_append,
      lookupDict_fresh ⟨h.classes ++ [(h.next, wiredClass base d1)],
        h.next + 1⟩ hwf1, lookupDict_cons]
    simp

/-- Witness for C6: wiring `EngineBase` twice with the same cylinder
binding yields the independent class objects 4 and 5 in the demonstration
store, leaves the bases untouched, and gives each sibling its own registry. -/
theorem c6_witness :
    (4 : Nat) ≠ 5 ∧
    (∀ j, (lookupDict demoHeap.classes j).isSome →
      lookupDict [(0, EngineBase), (1, CarBase), (2, BaseAB), (3, BaseA),
        (4, EngineWired), (5, EngineWired)] j = lookupDict demoHeap.classes j) ∧
    lookupDict [(0, EngineBase), (1, CarBase), (2, BaseAB), (3, BaseA),
      (4, EngineWired), (5, EngineWired)] 0 = some EngineBase ∧
    (∃ c1, lookupDict [(0, EngineBase), (1, CarBase), (2, BaseAB), (3, BaseA),
      (4, EngineWired), (5, EngineWired)] 4 = some c1 ∧
      c1.declared_dependencies = normalizeBindings [("cylinder", 1)]) ∧
    (∃ c2, lookupDict [(0, EngineBase), (1, CarBase), (2, BaseAB), (3, BaseA),
      (4, EngineWired), (5, EngineWired)] 5 = some c2 ∧
      c2.declared_dependencies = normalizeBindings [("cylinder", 1)]) :=
  c6_wiring_isolated_nonmutating demoHeap 0 EngineBase [("cylinder", 1)]
    [("cylinder", 1)] 4 5
    ⟨[(0, EngineBase), (1, CarBase), (2, BaseAB), (3, BaseA),
      (4, EngineWired)], 5⟩
    ⟨[(0, EngineBase), (1, CarBase), (2, BaseAB), (3, BaseA),
      (4, EngineWired), (5, EngineWired)], 6⟩
    (by unfold heapWF; decide) (by rfl) (by rfl) (by rfl)

theorem String_data_append (a b : String) : (a ++ b).data = a.data ++ b.data := by
  cases a
  cases b
  rfl

/-- Counterexample to C7 as stated.  The wired engine registry holds the
entry `cylinder`; a bundle with tagged key `Cylinder_kwargs`, whose bare
name differs from the registry entry only in case, does not resolve to the
registered class: the call fails with the unresolved-dependency error
instead of constructing the dependency. -/
theorem c7_counterexample :
    instantiate_dependencies EngineWired []
        [("cylinder_kwargs", 0), ("Cylinder_kwargs", 1)] =
      .error (.unresolvedDependencyError "Cylinder" "EngineBaseWired") ∧
    strLower "Cylinder" = "cylinder" ∧
    lookupDict EngineWired.declared_dependencies "cylinder" = some 1 ∧
    lookupDict EngineWired.declared_dependencies "Cylinder" = none := by
  refine ⟨by rfl, by rfl, by rfl, by rfl⟩

/-- C7 amended: dependency names are case-normalized at wiring time only.
A binding whose name lower-cases to the (lower-case) required name `r` makes
wiring succeed and the guard pass, and the registry then holds exactly the
entry `r`: a bundle tagged `r ++ "_kwargs"` resolves and attaches the
instance, while lookup of any name other than `r` itself — including the
original spelling of the binding when it differs in case — finds nothing.
Matching of required names and of bundle bare names against the registry is
case-sensitive. -/
theorem c7_case_normalized_at_wiring_only (h : ClassHeap) (b : Nat)
    (base : PyClass) (k r : String) (v : Nat)
    (hb : lookupDict h.classes b = some base)
    (hreq : base.required_dependencies = [r])
    (hlow : strLower k = r)
    (hr1 : r.data ≠ []) (hr2 : '\n' ∉ r.data) :
    ∃ c : PyClass,
      wire_dependencies h b [(k, v)] =
        .ok (h.next, ⟨h.classes ++ [(h.next, c)], h.next + 1⟩) ∧
      new_guard c = .ok () ∧
      lookupDict c.declared_dependencies r = some v ∧
      (∀ (args : Nat) (attrs : List (String × DepInstance)),
        instantiate_dependencies c attrs [(r ++ "_kwargs", args)] =
          .ok (dictInsert attrs r ⟨v, args⟩)) ∧
      (∀ t, t ≠ r → lookupDict c.declared_dependencies t = none) := by
  have hnb : normalizeBindings [(k, v)] = [(r, v)] := by
    simp [normalizeBindings, dictInsert, hlow]
  have hmm : missingRegistry (wiredClass base [(k, v)]) = [] := by
    rw [missingRegistry, wiredClass_required, wiredClass_declared, hnb, hreq]
    simp [dictKeys]
  have hlk : lookupDict (wiredClass base [(k, v)]).declared_dependencies r =
      some v := by
    rw [wiredClass_declared, hnb, lookupDict_cons]
    simp
  refine ⟨wiredClass base [(k, v)], wire_ok h b base [(k, v)] hb hmm,
    new_guard_ok _ hmm, hlk, ?_, ?_⟩
  · intro args attrs
    have hmb : missingBundles (wiredClass base [(k, v)]) [(r ++ "_kwargs", args)] = [] := by
      rw [missingBundles, wiredClass_required, hreq]
      simp [dictKeys]
    rw [instantiate_no_missing _ _ _ hmb]
    have he : extract_prefix_before_kwargs (r ++ "_kwargs") = some r := by
      rw [extract_eq_some_iff]
      exact ⟨hr1, hr2, Or.inl (by rw [String_data_append]; rfl)⟩
    simp only [processDeps, he, hlk]
  · intro t ht
    rw [wiredClass_declared, hnb, lookupDict_cons]
    have : (r == t) = false := by simp [Ne.symm ht]
    simp [this, lookupDict_nil]

/-- Witness for the amended C7: wiring `EngineBase` with the binding name
`CYLINDER` satisfies the required `cylinder`; the wired registry holds
`cylinder` (and resolves a `cylinder_kwargs` bundle) but not `CYLINDER`. -/
theorem c7_witness : ∃ c : PyClass,
    wire_dependencies demoHeap 0 [("CYLINDER", 1)] =
      .ok (demoHeap.next,
        ⟨demoHeap.classes ++ [(demoHeap.next, c)], demoHeap.next + 1⟩) ∧
    new_guard c = .ok () ∧
    lookupDict c.declared_dependencies "cylinder" = some 1 ∧
    (∀ (args : Nat) (attrs : List (String × DepInstance)),
      instantiate_dependencies c attrs [("cylinder" ++ "_kwargs", args)] =
        .ok (dictInsert attrs "cylinder" ⟨1, args⟩)) ∧
    (∀ t, t ≠ "cylinder" → lookupDict c.declared_dependencies t = none) :=
  c7_case_normalized_at_wiring_only demoHeap 0 EngineBase "CYLINDER"
    "cylinder" 1 (by rfl) (by rfl) (by rfl) (by decide) (by decide)

/-- Counterexample to C5 as stated.  `EngineOverWired` is wired with the
two names `cylinder` and `engine_block`, but its constructor supplies a
bundle only for `cylinder` (which is all that is required): the call
succeeds and the resulting instance exposes the attribute `cylinder` only —
not the wired name `engine_block` — so the attribute names are not exactly
the names the class was wired with. -/
theorem c5_counterexample :
    instantiate_dependencies EngineOverWired [] [("cylinder_kwargs", 0)] =
      .ok [("cylinder", ⟨1, 0⟩)] ∧
    "engine_block" ∈ dictKeys EngineOverWired.declared_dependencies ∧
    lookupDict [(("cylinder" : String), DepInstance.mk 1 0)] "engine_block" =
      none := by
  refine ⟨by rfl, by decide, by rfl⟩

/-- C5 amended: after a successful run of the instantiator (with
pairwise-distinct bare names, as in any call written with keyword
arguments), every supplied tagged key has attached, under its bare name, a
freshly constructed instance of the class registered under that name built
with exactly the supplied bundle — overwriting any prior attribute of that
name; and the attribute names present are exactly the bare names of the
supplied bundles together with the previously present ones.  The names of
the supplied bundles — not the full set of wired names — determine the
attributes: they coincide with the wired names exactly when a bundle is
supplied for every wired name. -/
theorem c5_instantiator_attaches_supplied_bundles (cls : PyClass)
    (attrs0 attrs : List (String × DepInstance)) (kwargs : List (String × Nat))
    (hok : instantiate_dependencies cls attrs0 kwargs = .ok attrs)
    (hnd : (kwargs.map (fun p => extract_prefix_before_kwargs p.1)).Nodup) :
    (∀ k bu, (k, bu) ∈ kwargs → ∃ t c,
      extract_prefix_before_kwargs k = some t ∧
      lookupDict cls.declared_dependencies t = some c ∧
      lookupDict attrs t = some ⟨c, bu⟩) ∧
    (∀ x, (lookupDict attrs x).isSome ↔
      (∃ p ∈ kwargs, extract_prefix_before_kwargs p.1 = some x) ∨
        (lookupDict attrs0 x).isSome) := by
  obtain ⟨hm, hpd⟩ := instantiate_ok_inv cls attrs0 attrs kwargs hok
  exact ⟨processDeps_ok_attr cls attrs0 attrs kwargs hpd hnd,
    processDeps_ok_domain cls attrs0 attrs kwargs hpd⟩

/-- Witness for the amended C5: building the wired car with its three
bundles attaches `bumper`, `windshield` and `engine` instances of the bound
classes with the supplied bundles, and those are exactly the attributes
present. -/
theorem c5_witness :
    (∀ k bu, (k, bu) ∈ [(("bumper_kwargs" : String), (10 : Nat)),
        ("windshield_kwargs", 11), ("engine_kwargs", 12)] → ∃ t c,
      extract_prefix_before_kwargs k = some t ∧
      lookupDict CarWired.declared_dependencies t = some c ∧
      lookupDict [("bumper", DepInstance.mk 2 10),
        ("windshield", DepInstance.mk 3 11),
        ("engine", DepInstance.mk 4 12)] t = some ⟨c, bu⟩) ∧
    (∀ x, (lookupDict [(("bumper" : String), DepInstance.mk 2 10),
        ("windshield", DepInstance.mk 3 11),
        ("engine", DepInstance.mk 4 12)] x).isSome ↔
      (∃ p ∈ [(("bumper_kwargs" : String), (10 : Nat)),
        ("windshield_kwargs", 11), ("engine_kwargs", 12)],
        extract_prefix_before_kwargs p.1 = some x) ∨
        (lookupDict ([] : List (String × DepInstance)) x).isSome) :=
  c5_instantiator_attaches_supplied_bundles CarWired []
    [("bumper", ⟨2, 10⟩), ("windshield", ⟨3, 11⟩), ("engine", ⟨4, 12⟩)]
    [("bumper_kwargs", 10), ("windshield_kwargs", 11), ("engine_kwargs", 12)]
    (by rfl) (by decide)

/-- Counterexample to C10 as stated.  Python regex semantics break the
claimed iff in both directions on keys containing newlines: `$` also
matches just before a final newline, so the key `"x_kwargs\n"` decomposes
(to `"x"`) although it does not end with `"_kwargs"`; and `.` does not
match a newline, so the key `"a\nb_kwargs"` fails to decompose although it
does end with `"_kwargs"` preceded by the non-empty prefix `"a\nb"`. -/
theorem c10_counterexample :
    extract_prefix_before_kwargs "x_kwargs\n" = some "x" ∧
    ¬ kwargsMarker.isSuffixOf "x_kwargs\n".data = true ∧
    extract_prefix_before_kwargs "a\nb_kwargs" = none ∧
    kwargsMarker.isSuffixOf "a\nb_kwargs".data = true ∧
    ("a\nb" : String).data ≠ [] := by
  refine ⟨by rfl, by decide, by rfl, by decide, by decide⟩

/-- C10 amended: a tagged key decomposes exactly when it is a non-empty
newline-free prefix followed by `"_kwargs"`, optionally followed by one
final newline, and the bare name is that (longest such) prefix.  Restricted
to newline-free keys this is the characterization the claim states: the key
decomposes iff it ends with `"_kwargs"` preceded by at least one character,
with the bare name the prefix before the suffix; in particular `"_kwargs"`
alone is malformed while `"x_kwargs_kwargs"` decomposes to the bare name
`"x_kwargs"`. -/
theorem c10_decomposition_characterization :
    (∀ s p : String, extract_prefix_before_kwargs s = some p ↔
      p.data ≠ [] ∧ '\n' ∉ p.data ∧
        (s.data = p.data ++ kwargsMarker ∨
         s.data = p.data ++ kwargsMarker ++ ['\n'])) ∧
    (∀ s p : String, '\n' ∉ s.data →
      (extract_prefix_before_kwargs s = some p ↔
        (p.data ≠ [] ∧ s.data = p.data ++ kwargsMarker))) ∧
    extract_prefix_before_kwargs "_kwargs" = none ∧
    extract_prefix_before_kwargs "x_kwargs_kwargs" = some "x_kwargs" := by
  refine ⟨extract_eq_some_iff, ?_, by rfl, by rfl⟩
  intro s p hs
  rw [extract_eq_some_iff]
  constructor
  · rintro ⟨h1, h2, h3 | h3⟩
    · exact ⟨h1, h3⟩
    · exfalso
      apply hs
      rw [h3]
      exact List.mem_append_right _ (List.mem_singleton.mpr rfl)
  · rintro ⟨h1, h3⟩
    refine ⟨h1, fun hp => hs ?_, Or.inl h3⟩
    rw [h3]
    exact List.mem_append_left _ hp

/-- Witness for the amended C10: the characterization applied to the
newline-free key `y_kwargs` and bare name `y`. -/
theorem c10_witness :
    extract_prefix_before_kwargs "y_kwargs" = some "y" ↔
      (("y" : String).data ≠ [] ∧
        ("y_kwargs" : String).data = ("y" : String).data ++ kwargsMarker) :=
  c10_decomposition_characterization.2.1 "y_kwargs" "y" (by decide)
